import Mathlib

/-!
Shallow embedding of the monkey-rs interpreter (src/token.rs, src/ast.rs,
src/eval.rs) and proofs about its parser and evaluator.

Modelling conventions:
* Rust `i32` is modelled as `Int`; the claims under study involve only small
  values, so two's-complement overflow never enters the statements.
* `HashMap<String, Object>` is modelled as an association list with
  key-replacing insertion (`Environment.set`), matching `HashMap::insert`
  and `HashMap::get` observationally.
* Rust panics are modelled as the `Outcome.panic` constructor carrying the
  panic message's static text; `eval` takes a fuel argument to make the
  (possibly diverging) recursive interpreter total, and running out of fuel
  is the separate constructor `Outcome.timeout`, never confused with a panic.
* The `RefCell<Environment>` threading of `Evaluator::eval` is modelled by
  state passing: `Outcome.ok v env2` returns both the value and the
  environment as it stands after evaluation.
-/

/-- Tokens, from `src/token.rs` (`enum Token`). -/
inductive Token where
  | illegal : Char → Token
  | eof : Token
  | assign : Token
  | plus : Token
  | minusTok : Token
  | star : Token
  | gt : Token
  | lt : Token
  | bang : Token
  | eq : Token
  | notEq : Token
  | lparen : Token
  | rparen : Token
  | lbrace : Token
  | rbrace : Token
  | semicolon : Token
  | comma : Token
  | letTok : Token
  | function : Token
  | ident : String → Token
  | int : Int → Token
  | ifTok : Token
  | elseTok : Token
  | whileTok : Token
  | returnTok : Token
  | true : Token
  | false : Token

/-- AST nodes: `enum ASTKind` from `src/ast.rs`, together with the extra
variants (`Bool`, `LT`, `LTE`, `FnDef`, `FnCall`, string-named `Let`) that
`src/eval.rs` matches on; the `AST { kind }` wrapper struct is flattened. -/
inductive AST where
  | int : Int → AST
  | ident : String → AST
  | add : AST → AST → AST
  | multi : AST → AST → AST
  | minus : AST → AST → AST
  | lt : AST → AST → AST
  | lte : AST → AST → AST
  | bool : Bool → AST
  | ret : AST → AST
  | compound : List AST → AST
  | letStmt : String → AST → AST
  | ifStmt : AST → AST → Option AST → AST
  | fnDef : List String → List AST → AST
  | fnCall : String → List AST → AST

/-- Runtime values: `enum Object` from `src/eval.rs`.  The `FnDef` variant
stores parameter names, body statements and the captured environment
(`env: RefCell<Environment>`), here an association list. -/
inductive Object where
  | integer : Int → Object
  | bool : Bool → Object
  | fnDef : List String → List AST → List (String × Object) → Object
  | null : Object

/-- `struct Environment { store: HashMap<String, Object> }` from
`src/eval.rs`, as an association list with unique keys. -/
abbrev Environment := List (String × Object)

/-- `Environment::get` (the lookup part; the panic on a missing key is
placed at the call site in `eval`, hence the `Option`). -/
def Environment.get : Environment → String → Option Object
  | [], _ => none
  | (k, v) :: rest, name => if k = name then some v else Environment.get rest name

/-- `Environment::set`: `HashMap::insert` semantics — replace the value of
an existing key, otherwise add the binding. -/
def Environment.set : Environment → String → Object → Environment
  | [], name, value => [(name, value)]
  | (k, v) :: rest, name, value =>
    if k = name then (k, value) :: rest
    else (k, v) :: Environment.set rest name value

/-- `Object::func` from `src/eval.rs`: the captured environment is
`Environment::new()`, i.e. empty. -/
def Object.func (args : List String) (stmts : List AST) : Object :=
  Object.fnDef args stmts []

/-- Result of one `Evaluator::eval` call: the value together with the
environment after the call, or a panic, or fuel exhaustion. -/
inductive Outcome where
  | ok : Object → Environment → Outcome
  | panic : String → Outcome
  | timeout : Outcome

/-- Result of evaluating a statement list in order (the `for s in stmts`
loops of the `Compound` and `FnCall` arms): every intermediate value is
collected, as in the Rust `v` vector. -/
inductive SeqResult where
  | vals : List Object → Environment → SeqResult
  | err : String → SeqResult
  | timeout : SeqResult

/-- Truth table of the falsy match arm of the `If` case in `src/eval.rs`:
`Object::Integer(0) | Object::Bool(false) | Object::Null` are falsy,
everything else is truthy. -/
def falsy : Object → Bool
  | Object.integer i => i == 0
  | Object.bool b => !b
  | Object.null => Bool.true
  | Object.fnDef _ _ _ => Bool.false

/-- Evaluate a list of statements in order, threading the environment, as
the `for s in stmts { v.push(self.eval(s, env)) }` loops do; a panic in any
statement aborts the whole loop. -/
def seqEval (f : AST → Environment → Outcome) : List AST → Environment → SeqResult
  | [], env => SeqResult.vals [] env
  | s :: rest, env =>
    match f s env with
    | Outcome.ok v env1 =>
      match seqEval f rest env1 with
      | SeqResult.vals vs env2 => SeqResult.vals (v :: vs) env2
      | r => r
    | Outcome.panic m => SeqResult.err m
    | Outcome.timeout => SeqResult.timeout

/-- `Evaluator::eval` from `src/eval.rs`, with fuel.  Each arm mirrors the
corresponding `match node.kind` arm; note two deliberate faithful oddities:
the `Minus` arm computes `l + r` (and reuses the `+` panic message), exactly
as the source does, and the `FnDef` arm captures an empty environment via
`Object::func`.  The empty-statement-list panic of the `Compound` and
`FnCall` arms is the `v.len() - 1` underflow panic of the source. -/
def eval : Nat → AST → Environment → Outcome
  | 0, _, _ => Outcome.timeout
  | fuel + 1, node, env =>
    match node with
    | AST.int i => Outcome.ok (Object.integer i) env
    | AST.add lhs rhs =>
      match eval fuel lhs env with
      | Outcome.ok l env1 =>
        match eval fuel rhs env1 with
        | Outcome.ok r env2 =>
          match l, r with
          | Object.integer a, Object.integer b =>
            Outcome.ok (Object.integer (a + b)) env2
          | _, _ => Outcome.panic ("+ operator supports only integer")
        | r2 => r2
      | r1 => r1
    | AST.minus lhs rhs =>
      match eval fuel lhs env with
      | Outcome.ok l env1 =>
        match eval fuel rhs env1 with
        | Outcome.ok r env2 =>
          match l, r with
          | Object.integer a, Object.integer b =>
            Outcome.ok (Object.integer (a + b)) env2
          | _, _ => Outcome.panic ("+ operator supports only integer")
        | r2 => r2
      | r1 => r1
    | AST.multi lhs rhs =>
      match eval fuel lhs env with
      | Outcome.ok l env1 =>
        match eval fuel rhs env1 with
        | Outcome.ok r env2 =>
          match l, r with
          | Object.integer a, Object.integer b =>
            Outcome.ok (Object.integer (a * b)) env2
          | _, _ => Outcome.panic ("* operator supports only integer")
        | r2 => r2
      | r1 => r1
    | AST.lt lhs rhs =>
      match eval fuel lhs env with
      | Outcome.ok l env1 =>
        match eval fuel rhs env1 with
        | Outcome.ok r env2 =>
          match l, r with
          | Object.integer a, Object.integer b =>
            Outcome.ok (Object.bool (decide (a < b))) env2
          | _, _ => Outcome.panic ("< operator supports only integer")
        | r2 => r2
      | r1 => r1
    | AST.lte lhs rhs =>
      match eval fuel lhs env with
      | Outcome.ok l env1 =>
        match eval fuel rhs env1 with
        | Outcome.ok r env2 =>
          match l, r with
          | Object.integer a, Object.integer b =>
            Outcome.ok (Object.bool (decide (a ≤ b))) env2
          | _, _ => Outcome.panic ("<= operator supports only integer")
        | r2 => r2
      | r1 => r1
    | AST.ifStmt cond stmt elseStmt =>
      match eval fuel cond env with
      | Outcome.ok v env1 =>
        if falsy v then
          match elseStmt with
          | some e => eval fuel e env1
          | none => Outcome.ok Object.null env1
        else eval fuel stmt env1
      | r1 => r1
    | AST.bool b => Outcome.ok (Object.bool b) env
    | AST.ret expr => eval fuel expr env
    | AST.compound stmts =>
      match seqEval (eval fuel) stmts env with
      | SeqResult.vals vs env2 =>
        match vs.getLast? with
        | some v => Outcome.ok v env2
        | none => Outcome.panic ("attempt to subtract with overflow")
      | SeqResult.err m => Outcome.panic m
      | SeqResult.timeout => Outcome.timeout
    | AST.letStmt name expr =>
      match eval fuel expr env with
      | Outcome.ok v env1 => Outcome.ok v (Environment.set env1 name v)
      | r1 => r1
    | AST.ident s =>
      match Environment.get env s with
      | some obj => Outcome.ok obj env
      | none => Outcome.panic ("Undefined variable")
    | AST.fnDef args stmts => Outcome.ok (Object.func args stmts) env
    | AST.fnCall name exprs =>
      match seqEval (eval fuel) exprs env with
      | SeqResult.vals values env1 =>
        match eval fuel (AST.ident name) env1 with
        | Outcome.ok fnobj env2 =>
          match fnobj with
          | Object.fnDef fargs fstmts fenv =>
            match
              seqEval (eval fuel) fstmts
                ((fargs.zip values).foldl
                  (fun e p => Environment.set e p.1 p.2)
                  (Environment.set fenv name (Object.fnDef fargs fstmts fenv))) with
            | SeqResult.vals vs _ =>
              match vs.getLast? with
              | some v => Outcome.ok v env2
              | none => Outcome.panic ("attempt to subtract with overflow")
            | SeqResult.err m => Outcome.panic m
            | SeqResult.timeout => Outcome.timeout
          | _ => Outcome.panic ("you tried to call undefined function.")
        | r2 => r2
      | SeqResult.err m => Outcome.panic m
      | SeqResult.timeout => Outcome.timeout

/-- `struct Parser` from `src/ast.rs`: a borrowed token slice and a cursor.
The `result` vector only matters for `Parser::parse`, which the claims do
not touch, so it is omitted. -/
structure Parser where
  tokens : List Token
  index : Nat

/-- `Parser::peek`: look at the current token without advancing. -/
def Parser.peek (p : Parser) : Option Token := p.tokens.get? p.index

/-- `Parser::get`: return the current token and advance; at the end of the
slice, return `None` without advancing. -/
def Parser.get (p : Parser) : Option Token × Parser :=
  match p.tokens.get? p.index with
  | some t => (some t, ⟨p.tokens, p.index + 1⟩)
  | none => (none, p)

/-- `Parser::primary` composed with `Parser::token_to_ast`: an integer or
identifier token becomes a leaf node; any other token (or end of input) is
a parse panic, modelled as `none`. -/
def primary (p : Parser) : Option (AST × Parser) :=
  match Parser.get p with
  | (some (Token.int i), p1) => some (AST.int i, p1)
  | (some (Token.ident s), p1) => some (AST.ident s, p1)
  | _ => none

/-- The `loop` of `Parser::multiplicative`: while the lookahead is `*`,
consume it, parse another primary and fold it left-associatively.  The
fuel bounds the number of iterations; the source loop terminates because
every iteration consumes tokens. -/
def multiLoop : Nat → AST → Parser → Option (AST × Parser)
  | 0, _, _ => none
  | fuel + 1, left, p =>
    match Parser.peek p with
    | some Token.star =>
      match primary (Parser.get p).2 with
      | some (right, p2) => multiLoop fuel (AST.multi left right) p2
      | none => none
    | _ => some (left, p)

/-- `Parser::multiplicative`: a primary followed by the `*` loop. -/
def multiplicative (fuel : Nat) (p : Parser) : Option (AST × Parser) :=
  match primary p with
  | some (left, p1) => multiLoop fuel left p1
  | none => none

/-- The `loop` of `Parser::additive`: while the lookahead is `+`, consume
it, parse another multiplicative term and fold it left-associatively. -/
def addLoop : Nat → AST → Parser → Option (AST × Parser)
  | 0, _, _ => none
  | fuel + 1, left, p =>
    match Parser.peek p with
    | some Token.plus =>
      match multiplicative fuel (Parser.get p).2 with
      | some (right, p2) => addLoop fuel (AST.add left right) p2
      | none => none
    | _ => some (left, p)

/-- `Parser::additive`: a multiplicative term followed by the `+` loop. -/
def additive (fuel : Nat) (p : Parser) : Option (AST × Parser) :=
  match multiplicative fuel p with
  | some (left, p1) => addLoop fuel left p1
  | none => none

example : eval 1 (AST.int 3) [] = Outcome.ok (Object.integer 3) [] := rfl

example :
    eval 2 (AST.add (AST.int 1) (AST.int 2)) [] =
      Outcome.ok (Object.integer 3) [] := rfl

example (fuel : Nat) (env : Environment) :
    eval (fuel + 1) (AST.bool Bool.true) env =
      Outcome.ok (Object.bool Bool.true) env := rfl

example :
    eval 3 (AST.compound [AST.letStmt ("x") (AST.int 2), AST.ident ("x")]) [] =
      Outcome.ok (Object.integer 2) [("x", Object.integer 2)] := rfl

-- sanity: the `eval_closure` test of src/eval.rs (the `twice` function)
example :
    (match eval 9 (AST.letStmt ("twice")
        (AST.fnDef [("f"), ("x")]
          [AST.fnCall ("f") [AST.fnCall ("f") [AST.ident ("x")]]])) [] with
     | Outcome.ok _ env1 =>
       eval 9 (AST.fnCall ("twice")
         [AST.fnDef [("a")] [AST.ret (AST.add (AST.ident ("a")) (AST.int 1))],
          AST.int 0]) env1
     | r => r) =
      Outcome.ok (Object.integer 2)
        [("twice", Object.fnDef [("f"), ("x")]
          [AST.fnCall ("f") [AST.fnCall ("f") [AST.ident ("x")]]] [])] := rfl

-- sanity: parsing 1 + 2 (the parse_one_plus_two test of src/ast.rs)
example :
    additive 5 ⟨[Token.int 1, Token.plus, Token.int 2, Token.eof], 0⟩ =
      some (AST.add (AST.int 1) (AST.int 2),
        ⟨[Token.int 1, Token.plus, Token.int 2, Token.eof], 3⟩) := rfl

/-- Reading back a key just inserted by `Environment.set` yields the
inserted value (`HashMap::insert` then `HashMap::get`). -/
@[simp] theorem Environment.get_set (env : Environment) (name : String) (v : Object) :
    Environment.get (Environment.set env name v) name = some v := by
  induction env with
  | nil => simp [Environment.set, Environment.get]
  | cons p rest ih =>
    obtain ⟨k, w⟩ := p
    by_cases h : k = name
    · simp [Environment.set, Environment.get, h]
    · simp [Environment.set, Environment.get, h, ih]

/-- A successful statement-loop run collects exactly one value per
statement (the Rust `v` vector grows by one `push` per iteration). -/
theorem seqEval_length (f : AST → Environment → Outcome) :
    ∀ (l : List AST) (env : Environment) (vs : List Object) (env2 : Environment),
      seqEval f l env = SeqResult.vals vs env2 → vs.length = l.length := by
  intro l
  induction l with
  | nil =>
    intro env vs env2 h
    cases h
    rfl
  | cons s rest ih =>
    intro env vs env2 h
    simp only [seqEval] at h
    cases h1 : f s env with
    | ok v env1 =>
      simp only [h1] at h
      cases h2 : seqEval f rest env1 with
      | vals vs2 e2 =>
        simp only [h2] at h
        cases h
        simp [ih env1 vs2 env2 h2]
      | err m => simp only [h2] at h; exact SeqResult.noConfusion h
      | timeout => simp only [h2] at h; exact SeqResult.noConfusion h
    | panic m => simp only [h1] at h; exact SeqResult.noConfusion h
    | timeout => simp only [h1] at h; exact SeqResult.noConfusion h

/-- A successful statement-loop run over a non-empty statement list
produces a non-empty value list. -/
theorem seqEval_vals_ne_nil (f : AST → Environment → Outcome) (l : List AST)
    (env : Environment) (vs : List Object) (env2 : Environment)
    (hl : l ≠ []) (h : seqEval f l env = SeqResult.vals vs env2) : vs ≠ [] := by
  intro hv
  subst hv
  have hlen := seqEval_length f l env [] env2 h
  exact hl (List.length_eq_zero.mp hlen.symm)

/-- Token lists for the two parses named by the spec: `1 + 2 * 3` and
`1 + 2 + 3`, each terminated by EOF, as in the tests of src/ast.rs. -/
def toksOnePlusTwoStarThree : List Token :=
  [Token.int 1, Token.plus, Token.int 2, Token.star, Token.int 3, Token.eof]

def toksOnePlusTwoPlusThree : List Token :=
  [Token.int 1, Token.plus, Token.int 2, Token.plus, Token.int 3, Token.eof]

/-- C5: the additive level produces a left-associative chain of
multiplicative terms and the multiplicative level binds tighter: the token
sequence `1 + 2 * 3` (EOF-terminated) parses to
`Add(IntLiteral(1), Multiply(IntLiteral(2), IntLiteral(3)))`, and
`1 + 2 + 3` parses to `Add(Add(IntLiteral(1), IntLiteral(2)), IntLiteral(3))`. -/
theorem additive_precedence_and_left_assoc :
    additive 8 ⟨toksOnePlusTwoStarThree, 0⟩ =
      some (AST.add (AST.int 1) (AST.multi (AST.int 2) (AST.int 3)),
        ⟨toksOnePlusTwoStarThree, 5⟩) ∧
    additive 8 ⟨toksOnePlusTwoPlusThree, 0⟩ =
      some (AST.add (AST.add (AST.int 1) (AST.int 2)) (AST.int 3),
        ⟨toksOnePlusTwoPlusThree, 5⟩) :=
  ⟨rfl, rfl⟩

/-- C1: the claim says evaluating `Minus(lhs, rhs)` with both children
Integers yields their difference; the code's `ASTKind::Minus` arm
(src/eval.rs line 74) instead computes `l + r` — a copy-paste of the `Add`
arm whose panic message still reads "+ operator supports only integer".
At the failing input `Minus(Int 5, Int 3)` the code yields `Integer(8)`,
not `Integer(5 - 3) = Integer(2)`. -/
theorem minus_code_bug_failing_input :
    eval 2 (AST.minus (AST.int 5) (AST.int 3)) [] =
      Outcome.ok (Object.integer 8) [] ∧ (8 : Int) ≠ 5 - 3 :=
  ⟨rfl, by decide⟩

/-- C2 counterexample: the claim says a `FnDef` literal captures the
environment active at its evaluation.  Evaluating `fn() { y; }` in an
environment binding `y` yields a Function whose captured environment is
the empty list, not that environment; consequently the program
`let y = 7; let f = fn() { y; }; f()` panics with an undefined-variable
error instead of yielding `Integer(7)`. -/
theorem fnDef_capture_counterexample :
    eval 2 (AST.fnDef [] [AST.ident ("y")]) [("y", Object.integer 7)] =
      Outcome.ok (Object.fnDef [] [AST.ident ("y")] []) [("y", Object.integer 7)] ∧
    ([] : Environment) ≠ [("y", Object.integer 7)] ∧
    eval 6 (AST.compound
        [AST.letStmt ("y") (AST.int 7),
         AST.letStmt ("f") (AST.fnDef [] [AST.ident ("y")]),
         AST.fnCall ("f") []]) [] =
      Outcome.panic ("Undefined variable") :=
  ⟨rfl, fun h => List.noConfusion h, rfl⟩

/-- C2 amended: evaluating a `FnDef` literal yields a Function value whose
captured environment is a fresh empty `Environment::new()` (see
`Object::func` in src/eval.rs), regardless of the environment active at
the literal's evaluation; free identifiers of the body other than the
parameters and the callee's own name therefore do not resolve against
definition-site bindings. -/
theorem fnDef_captures_fresh_empty_environment (fuel : Nat)
    (args : List String) (stmts : List AST) (env : Environment) :
    eval (fuel + 1) (AST.fnDef args stmts) env =
      Outcome.ok (Object.fnDef args stmts []) env := rfl

/-- C7: `Return` is a no-op wrapper: evaluating `Return(e)` is evaluating
`e` itself (one recursion step deeper), with no distinct control-flow
effect. -/
theorem return_evaluates_wrapped_expression (fuel : Nat) (e : AST)
    (env : Environment) :
    eval (fuel + 1) (AST.ret e) env = eval fuel e env := rfl

/-- C9: evaluating an empty `Compound` block aborts (the `v.len() - 1`
underflow of src/eval.rs line 110) instead of returning a Value, in every
environment. -/
theorem compound_empty_fails (fuel : Nat) (env : Environment) :
    eval (fuel + 1) (AST.compound []) env =
      Outcome.panic ("attempt to subtract with overflow") := rfl

/-- The falsy match arm of the `If` case fires exactly on `Bool(false)`,
`Integer(0)` and `Null`. -/
theorem falsy_eq_true_iff (w : Object) :
    falsy w = Bool.true ↔
      (w = Object.bool Bool.false ∨ w = Object.integer 0 ∨ w = Object.null) := by
  cases w with
  | integer i => simp [falsy]
  | bool b => cases b <;> simp [falsy]
  | fnDef a b c => simp [falsy]
  | null => simp [falsy]

/-- C3: if the condition of an `If` node evaluates to `Bool(false)`,
`Integer(0)` or `Null`, the node evaluates to the else-branch when present
and to `Null` when absent; for every other condition value the node
evaluates to the consequence. -/
theorem if_truthiness (fuel : Nat) (cond stmt : AST) (elseStmt : Option AST)
    (env env1 : Environment) (v : Object)
    (h : eval fuel cond env = Outcome.ok v env1) :
    ((v = Object.bool Bool.false ∨ v = Object.integer 0 ∨ v = Object.null) →
      eval (fuel + 1) (AST.ifStmt cond stmt elseStmt) env =
        (match elseStmt with
         | some e => eval fuel e env1
         | none => Outcome.ok Object.null env1)) ∧
    ((v ≠ Object.bool Bool.false ∧ v ≠ Object.integer 0 ∧ v ≠ Object.null) →
      eval (fuel + 1) (AST.ifStmt cond stmt elseStmt) env =
        eval fuel stmt env1) := by
  constructor
  · intro hv
    simp only [eval, h]
    rw [if_pos ((falsy_eq_true_iff v).mpr hv)]
  · intro hv
    simp only [eval, h]
    rw [if_neg ?_]
    intro hf
    rcases (falsy_eq_true_iff v).mp hf with h1 | h1 | h1
    · exact hv.1 h1
    · exact hv.2.1 h1
    · exact hv.2.2 h1

/-- C3 witness: a falsy condition (`Bool(false)`) with no else-branch
yields `Null`. -/
theorem if_truthiness_witness :
    eval 1 (AST.bool Bool.false) [] = Outcome.ok (Object.bool Bool.false) [] ∧
    eval 2 (AST.ifStmt (AST.bool Bool.false) (AST.int 0) none) [] =
      Outcome.ok Object.null [] :=
  ⟨rfl,
    (if_truthiness 1 (AST.bool Bool.false) (AST.int 0) none [] []
      (Object.bool Bool.false) rfl).1 (Or.inl rfl)⟩

/-- C6: a `Let` node evaluates its expression to `v`, binds the name to `v`
in the current environment (replacing any previous binding of that name),
returns `v` as its own result, and a subsequent `Identifier` lookup of the
name against the updated environment yields `v`. -/
theorem let_binds_in_current_env (fuel fuel2 : Nat) (name : String)
    (expr : AST) (env env1 : Environment) (v : Object)
    (h : eval fuel expr env = Outcome.ok v env1) :
    eval (fuel + 1) (AST.letStmt name expr) env =
      Outcome.ok v (Environment.set env1 name v) ∧
    eval (fuel2 + 1) (AST.ident name) (Environment.set env1 name v) =
      Outcome.ok v (Environment.set env1 name v) := by
  constructor
  · simp only [eval, h]
  · simp only [eval, Environment.get_set]

/-- C6 witness: `let x = 2` in an environment where `x` was previously `1`
returns `Integer(2)`, overwrites the binding, and reading `x` back yields
`Integer(2)`. -/
theorem let_binds_in_current_env_witness :
    eval 2 (AST.letStmt ("x") (AST.int 2)) [("x", Object.integer 1)] =
      Outcome.ok (Object.integer 2) [("x", Object.integer 2)] ∧
    eval 1 (AST.ident ("x")) [("x", Object.integer 2)] =
      Outcome.ok (Object.integer 2) [("x", Object.integer 2)] :=
  let_binds_in_current_env 1 0 ("x") (AST.int 2) [("x", Object.integer 1)]
    [("x", Object.integer 1)] (Object.integer 2) rfl

/-- C8: a non-empty `Compound` block evaluates its statements in order
against the same threaded environment (a `Let` inside the block mutates
the enclosing scope, visible in the returned environment `env1`), and the
block's value is the value of its last statement. -/
theorem compound_nonempty_last_value (fuel : Nat) (stmts : List AST)
    (env env1 : Environment) (vals : List Object)
    (hne : stmts ≠ [])
    (h : seqEval (eval fuel) stmts env = SeqResult.vals vals env1) :
    eval (fuel + 1) (AST.compound stmts) env =
      Outcome.ok
        (vals.getLast (seqEval_vals_ne_nil (eval fuel) stmts env vals env1 hne h))
        env1 := by
  simp only [eval, h]
  rw [List.getLast?_eq_getLast vals
    (seqEval_vals_ne_nil (eval fuel) stmts env vals env1 hne h)]

/-- C8 witness: the block `{ let x = 2; x; }` evaluates to the value of its
last statement, `Integer(2)`, and the `let` mutation is visible in the
resulting environment. -/
theorem compound_nonempty_last_value_witness :
    eval 3 (AST.compound [AST.letStmt ("x") (AST.int 2), AST.ident ("x")]) [] =
      Outcome.ok (Object.integer 2) [("x", Object.integer 2)] :=
  Eq.trans
    (compound_nonempty_last_value 2
      [AST.letStmt ("x") (AST.int 2), AST.ident ("x")] []
      [("x", Object.integer 2)] [Object.integer 2, Object.integer 2]
      (List.cons_ne_nil _ _) rfl)
    rfl

/-- C4: calling a name bound to a Function value evaluates the call by
binding the callee's own name to the Function value itself and then the
parameters to the evaluated arguments positionally via `zip` — with no
arity check of any kind, so surplus arguments are silently dropped and
surplus parameters are left unbound — and running the body in that
environment.  The equation holds for every relative length of `fargs` and
`values`. -/
theorem fnCall_positional_zip_binding (fuel : Nat) (name : String)
    (exprs : List AST) (env env1 env2 : Environment) (values : List Object)
    (fargs : List String) (fstmts : List AST) (fenv : Environment)
    (hargs : seqEval (eval fuel) exprs env = SeqResult.vals values env1)
    (hlook : eval fuel (AST.ident name) env1 =
      Outcome.ok (Object.fnDef fargs fstmts fenv) env2) :
    eval (fuel + 1) (AST.fnCall name exprs) env =
      (match
        seqEval (eval fuel) fstmts
          ((fargs.zip values).foldl (fun e p => Environment.set e p.1 p.2)
            (Environment.set fenv name (Object.fnDef fargs fstmts fenv))) with
       | SeqResult.vals vs _ =>
         match vs.getLast? with
         | some v => Outcome.ok v env2
         | none => Outcome.panic ("attempt to subtract with overflow")
       | SeqResult.err m => Outcome.panic m
       | SeqResult.timeout => Outcome.timeout) := by
  simp only [eval, hargs, hlook]

/-- Caller environment for the C4 witness: `f` is a two-parameter function
`fn(a, b) { a; }`. -/
def envC4 : Environment :=
  [("f", Object.fnDef [("a"), ("b")] [AST.ident ("a")] [])]

/-- C4 witness: calling the two-parameter `f` with a single argument
proceeds without failing — the surplus parameter `b` stays unbound and the
call returns `a`'s value. -/
theorem fnCall_positional_zip_binding_witness :
    eval 3 (AST.fnCall ("f") [AST.int 10]) envC4 =
      Outcome.ok (Object.integer 10) envC4 :=
  Eq.trans
    (fnCall_positional_zip_binding 2 ("f") [AST.int 10] envC4 envC4 envC4
      [Object.integer 10] [("a"), ("b")] [AST.ident ("a")] [] rfl rfl)
    rfl

mutual
/-- Side condition of C10: the expression tree contains no `Let` node. -/
def noLet : AST → Bool
  | AST.int _ => Bool.true
  | AST.ident _ => Bool.true
  | AST.add l r => noLet l && noLet r
  | AST.multi l r => noLet l && noLet r
  | AST.minus l r => noLet l && noLet r
  | AST.lt l r => noLet l && noLet r
  | AST.lte l r => noLet l && noLet r
  | AST.bool _ => Bool.true
  | AST.ret e => noLet e
  | AST.compound stmts => noLetList stmts
  | AST.letStmt _ _ => Bool.false
  | AST.ifStmt c s (some e) => noLet c && noLet s && noLet e
  | AST.ifStmt c s none => noLet c && noLet s
  | AST.fnDef _ stmts => noLetList stmts
  | AST.fnCall _ args2 => noLetList args2

/-- `noLet` over each expression of a list. -/
def noLetList : List AST → Bool
  | [] => Bool.true
  | a :: rest => noLet a && noLetList rest
end

/-- Helper for C10: evaluating a Let-free expression never changes the
environment it is given — every `Environment::set` reachable from such an
expression targets the clone stored inside the called Function value, not
the caller's environment. -/
theorem eval_ok_env_of_noLet :
    ∀ (fuel : Nat) (a : AST) (env : Environment) (v : Object)
      (env2 : Environment),
      noLet a = Bool.true → eval fuel a env = Outcome.ok v env2 → env2 = env := by
  intro fuel
  induction fuel with
  | zero =>
    intro a env v env2 _ h
    exact Outcome.noConfusion h
  | succ fuel ih =>
    have ihList : ∀ (l : List AST) (env : Environment) (vs : List Object)
        (env2 : Environment), noLetList l = Bool.true →
        seqEval (eval fuel) l env = SeqResult.vals vs env2 → env2 = env := by
      intro l
      induction l with
      | nil =>
        intro env vs env2 _ h
        cases h
        rfl
      | cons s rest ihl =>
        intro env vs env2 hnl h
        simp only [noLetList, Bool.and_eq_true] at hnl
        simp only [seqEval] at h
        cases h1 : eval fuel s env with
        | ok v1 e1 =>
          simp only [h1] at h
          cases h2 : seqEval (eval fuel) rest e1 with
          | vals vs2 e2 =>
            simp only [h2] at h
            cases h
            exact (ihl e1 _ _ hnl.2 h2).trans (ih s env v1 e1 hnl.1 h1)
          | err m => simp only [h2] at h; exact SeqResult.noConfusion h
          | timeout => simp only [h2] at h; exact SeqResult.noConfusion h
        | panic m => simp only [h1] at h; exact SeqResult.noConfusion h
        | timeout => simp only [h1] at h; exact SeqResult.noConfusion h
    intro a env v env2 hnl h
    cases a with
    | int i =>
      simp only [eval] at h
      cases h
      rfl
    | ident s =>
      simp only [eval] at h
      cases h1 : Environment.get env s with
      | some obj => simp only [h1] at h; cases h; rfl
      | none => simp only [h1] at h; exact Outcome.noConfusion h
    | add lhs rhs =>
      simp only [noLet, Bool.and_eq_true] at hnl
      simp only [eval] at h
      cases h1 : eval fuel lhs env with
      | ok l e1 =>
        simp only [h1] at h
        cases h2 : eval fuel rhs e1 with
        | ok r e2 =>
          simp only [h2] at h
          cases l <;> cases r <;> (try exact Outcome.noConfusion h)
          cases h
          exact (ih rhs e1 _ _ hnl.2 h2).trans (ih lhs env _ _ hnl.1 h1)
        | panic m => simp only [h2] at h; exact Outcome.noConfusion h
        | timeout => simp only [h2] at h; exact Outcome.noConfusion h
      | panic m => simp only [h1] at h; exact Outcome.noConfusion h
      | timeout => simp only [h1] at h; exact Outcome.noConfusion h
    | multi lhs rhs =>
      simp only [noLet, Bool.and_eq_true] at hnl
      simp only [eval] at h
      cases h1 : eval fuel lhs env with
      | ok l e1 =>
        simp only [h1] at h
        cases h2 : eval fuel rhs e1 with
        | ok r e2 =>
          simp only [h2] at h
          cases l <;> cases r <;> (try exact Outcome.noConfusion h)
          cases h
          exact (ih rhs e1 _ _ hnl.2 h2).trans (ih lhs env _ _ hnl.1 h1)
        | panic m => simp only [h2] at h; exact Outcome.noConfusion h
        | timeout => simp only [h2] at h; exact Outcome.noConfusion h
      | panic m => simp only [h1] at h; exact Outcome.noConfusion h
      | timeout => simp only [h1] at h; exact Outcome.noConfusion h
    | minus lhs rhs =>
      simp only [noLet, Bool.and_eq_true] at hnl
      simp only [eval] at h
      cases h1 : eval fuel lhs env with
      | ok l e1 =>
        simp only [h1] at h
        cases h2 : eval fuel rhs e1 with
        | ok r e2 =>
          simp only [h2] at h
          cases l <;> cases r <;> (try exact Outcome.noConfusion h)
          cases h
          exact (ih rhs e1 _ _ hnl.2 h2).trans (ih lhs env _ _ hnl.1 h1)
        | panic m => simp only [h2] at h; exact Outcome.noConfusion h
        | timeout => simp only [h2] at h; exact Outcome.noConfusion h
      | panic m => simp only [h1] at h; exact Outcome.noConfusion h
      | timeout => simp only [h1] at h; exact Outcome.noConfusion h
    | lt lhs rhs =>
      simp only [noLet, Bool.and_eq_true] at hnl
      simp only [eval] at h
      cases h1 : eval fuel lhs env with
      | ok l e1 =>
        simp only [h1] at h
        cases h2 : eval fuel rhs e1 with
        | ok r e2 =>
          simp only [h2] at h
          cases l <;> cases r <;> (try exact Outcome.noConfusion h)
          cases h
          exact (ih rhs e1 _ _ hnl.2 h2).trans (ih lhs env _ _ hnl.1 h1)
        | panic m => simp only [h2] at h; exact Outcome.noConfusion h
        | timeout => simp only [h2] at h; exact Outcome.noConfusion h
      | panic m => simp only [h1] at h; exact Outcome.noConfusion h
      | timeout => simp only [h1] at h; exact Outcome.noConfusion h
    | lte lhs rhs =>
      simp only [noLet, Bool.and_eq_true] at hnl
      simp only [eval] at h
      cases h1 : eval fuel lhs env with
      | ok l e1 =>
        simp only [h1] at h
        cases h2 : eval fuel rhs e1 with
        | ok r e2 =>
          simp only [h2] at h
          cases l <;> cases r <;> (try exact Outcome.noConfusion h)
          cases h
          exact (ih rhs e1 _ _ hnl.2 h2).trans (ih lhs env _ _ hnl.1 h1)
        | panic m => simp only [h2] at h; exact Outcome.noConfusion h
        | timeout => simp only [h2] at h; exact Outcome.noConfusion h
      | panic m => simp only [h1] at h; exact Outcome.noConfusion h
      | timeout => simp only [h1] at h; exact Outcome.noConfusion h
    | bool b =>
      simp only [eval] at h
      cases h
      rfl
    | ret e =>
      simp only [noLet] at hnl
      simp only [eval] at h
      exact ih e env _ _ hnl h
    | compound stmts =>
      simp only [noLet] at hnl
      simp only [eval] at h
      cases h1 : seqEval (eval fuel) stmts env with
      | vals vs e2 =>
        simp only [h1] at h
        cases h2 : vs.getLast? with
        | some v0 =>
          simp only [h2] at h
          cases h
          exact ihList stmts env vs _ hnl h1
        | none => simp only [h2] at h; exact Outcome.noConfusion h
      | err m => simp only [h1] at h; exact Outcome.noConfusion h
      | timeout => simp only [h1] at h; exact Outcome.noConfusion h
    | letStmt s e =>
      simp only [noLet] at hnl
      exact Bool.noConfusion hnl
    | ifStmt c s els =>
      simp only [eval] at h
      cases h1 : eval fuel c env with
      | ok v1 e1 =>
        simp only [h1] at h
        cases els with
        | some e =>
          simp only [noLet, Bool.and_eq_true] at hnl
          by_cases hf : falsy v1 = Bool.true
          · rw [if_pos hf] at h
            exact (ih e e1 _ _ hnl.2 h).trans (ih c env _ _ hnl.1.1 h1)
          · rw [if_neg hf] at h
            exact (ih s e1 _ _ hnl.1.2 h).trans (ih c env _ _ hnl.1.1 h1)
        | none =>
          simp only [noLet, Bool.and_eq_true] at hnl
          by_cases hf : falsy v1 = Bool.true
          · rw [if_pos hf] at h
            cases h
            exact ih c env _ _ hnl.1 h1
          · rw [if_neg hf] at h
            exact (ih s e1 _ _ hnl.2 h).trans (ih c env _ _ hnl.1 h1)
      | panic m => simp only [h1] at h; exact Outcome.noConfusion h
      | timeout => simp only [h1] at h; exact Outcome.noConfusion h
    | fnDef args2 stmts =>
      simp only [eval] at h
      cases h
      rfl
    | fnCall name exprs =>
      simp only [noLet] at hnl
      simp only [eval] at h
      cases h1 : seqEval (eval fuel) exprs env with
      | vals values e1 =>
        simp only [h1] at h
        cases h2 : eval fuel (AST.ident name) e1 with
        | ok fnobj e2 =>
          have he2 : e2 = e1 :=
            ih (AST.ident name) e1 fnobj e2 (by simp [noLet]) h2
          have he1 : e1 = env := ihList exprs env values e1 hnl h1
          cases fnobj with
          | fnDef fargs fstmts fenv =>
            simp only [h2] at h
            cases h3 : seqEval (eval fuel) fstmts
                ((fargs.zip values).foldl (fun e p => Environment.set e p.1 p.2)
                  (Environment.set fenv name (Object.fnDef fargs fstmts fenv))) with
            | vals vs e3 =>
              simp only [h3] at h
              cases h4 : vs.getLast? with
              | some v0 =>
                simp only [h4] at h
                cases h
                exact he2.trans he1
              | none => simp only [h4] at h; exact Outcome.noConfusion h
            | err m => simp only [h3] at h; exact Outcome.noConfusion h
            | timeout => simp only [h3] at h; exact Outcome.noConfusion h
          | integer i => simp only [h2] at h; exact Outcome.noConfusion h
          | bool b => simp only [h2] at h; exact Outcome.noConfusion h
          | null => simp only [h2] at h; exact Outcome.noConfusion h
        | panic m => simp only [h2] at h; exact Outcome.noConfusion h
        | timeout => simp only [h2] at h; exact Outcome.noConfusion h
      | err m => simp only [h1] at h; exact Outcome.noConfusion h
      | timeout => simp only [h1] at h; exact Outcome.noConfusion h

/-- C10: when the argument expressions of a `FnCall` contain no `Let`
node, a successful call leaves the caller's environment unchanged — the
self-name binding, the parameter bindings, and any `Let` executed in the
function body all go into the clone of the environment stored inside the
looked-up Function value, never into the caller's environment. -/
theorem fnCall_preserves_caller_env (fuel : Nat) (name : String)
    (exprs : List AST) (env env2 : Environment) (v : Object)
    (hnl : noLetList exprs = Bool.true)
    (h : eval fuel (AST.fnCall name exprs) env = Outcome.ok v env2) :
    env2 = env :=
  eval_ok_env_of_noLet fuel (AST.fnCall name exprs) env v env2
    (by simp [noLet, hnl]) h

/-- Caller environment for the C10 witness: `f` is `fn(a) { let x = 5; x; }`,
whose body executes a `Let`. -/
def envC10 : Environment :=
  [("f", Object.fnDef [("a")]
    [AST.letStmt ("x") (AST.int 5), AST.ident ("x")] [])]

/-- C10 witness: calling `f(1)` — whose body runs `let x = 5` — succeeds
with `Integer(5)` and returns the caller's environment exactly as it was. -/
theorem fnCall_preserves_caller_env_witness :
    eval 3 (AST.fnCall ("f") [AST.int 1]) envC10 =
      Outcome.ok (Object.integer 5) envC10 ∧ envC10 = envC10 :=
  ⟨rfl, fnCall_preserves_caller_env 3 ("f") [AST.int 1] envC10 envC10
    (Object.integer 5) (by simp [noLetList, noLet]) rfl⟩
